import Mathlib

/-!
Verification of the Roman-x-tools Firebase console against its specification.

The development shallowly embeds the pure logic of the repository's modules:
the URL/endpoint construction of the store-client service, the HTTP-status
classification of its five request helpers, the type-inference logic of the
tree node editor, the response shaping of the plan-generator service and the
sequential action-plan execution engine of the application component.

Strings are modelled as `List Char` (the sources only manipulate Unicode
scalar sequences; we restrict the whitespace sets to the ASCII whitespace
the UI can actually produce).  JavaScript values are modelled by `JSValue`;
finite numbers are modelled exactly as rationals (double rounding is not
relevant to any claim here, which only depend on which parse branch is
taken and on integer-valued examples).
-/

namespace RomanTools

/-- ASCII whitespace recognised by JavaScript `String.prototype.trim` and by
the implicit trimming of `Number()` (space, tab, LF, CR, VT, FF). -/
def wsChar (c : Char) : Bool :=
  c == ' ' || c == '\t' || c == '\n' || c == '\r' ||
  c == Char.ofNat 11 || c == Char.ofNat 12

/-- Drop trailing characters satisfying `p`. -/
def rdropW (p : Char → Bool) (s : List Char) : List Char :=
  (s.reverse.dropWhile p).reverse

/-- Model of `input.trim()`. -/
def trimBoth (s : List Char) : List Char :=
  rdropW wsChar (s.dropWhile wsChar)

/-- Model of `url.replace(/\/+$/, '')`: drop every trailing slash. -/
def stripTrailingSlashes (s : List Char) : List Char :=
  rdropW (fun c => c == '/') s

def jsonSuffix : List Char := (".json").data

/-- Model of `url.replace(/\.json$/, '')`: drop one trailing ".json" when present. -/
def stripDotJson (s : List Char) : List Char :=
  if jsonSuffix.isSuffixOf s then s.take (s.length - 5) else s

/-- A character matched by the project-id character class `[a-z0-9-]` with the `i` flag. -/
def idChar (c : Char) : Bool := c.isAlpha || c.isDigit || c == '-'

/-- Model of `/^[a-z0-9-]+$/i.test(url)`. -/
def isProjectId (s : List Char) : Bool := !s.isEmpty && s.all idChar

def httpPre : List Char := ("http://").data
def httpsPre : List Char := ("https://").data
def fbSuffix : List Char := (".firebaseio.com").data

/-- The branch structure of `cleanUrl` after the three trimming steps
(project-id expansion, scheme detection, scheme prefixing). -/
def cleanUrlCore (u : List Char) : List Char :=
  if isProjectId u then httpsPre ++ u ++ fbSuffix
  else if httpPre.isPrefixOf u || httpsPre.isPrefixOf u then u
  else httpsPre ++ u

/-- `cleanUrl` from the store-client service: trim, strip trailing slashes,
strip one trailing ".json", expand a bare project id to
`https://id.firebaseio.com`, otherwise prefix `https://` when no scheme is
present. -/
def cleanUrl (input : List Char) : List Char :=
  cleanUrlCore (stripDotJson (stripTrailingSlashes (trimBoth input)))

/-! ### Helper lemmas about prefixes and trimming -/

theorem isPrefixOf_append_self : ∀ (l t : List Char), l.isPrefixOf (l ++ t) = true
  | [], _ => by simp [List.isPrefixOf]
  | a :: as, t => by
    simp only [List.cons_append, List.isPrefixOf, Bool.and_eq_true, beq_self_eq_true,
      true_and]
    exact isPrefixOf_append_self as t

theorem head?_of_isPrefixOf : ∀ {p l : List Char} {c : Char},
    p.isPrefixOf l = true → p.head? = some c → l.head? = some c
  | [], _, _, _, hh => by simp at hh
  | a :: as, [], _, hp, _ => by simp [List.isPrefixOf] at hp
  | a :: as, b :: bs, c, hp, hh => by
    simp only [List.isPrefixOf, Bool.and_eq_true, beq_iff_eq] at hp
    simp only [List.head?] at hh ⊢
    rw [← hp.1]; exact hh

theorem mem_of_isPrefixOf : ∀ {p l : List Char} {c : Char},
    p.isPrefixOf l = true → c ∈ p → c ∈ l
  | [], _, _, _, hc => by simp at hc
  | a :: as, [], _, hp, _ => by simp [List.isPrefixOf] at hp
  | a :: as, b :: bs, c, hp, hc => by
    simp only [List.isPrefixOf, Bool.and_eq_true, beq_iff_eq] at hp
    rcases List.mem_cons.1 hc with h | h
    · exact List.mem_cons.2 (Or.inl (h.trans hp.1))
    · exact List.mem_cons.2 (Or.inr (mem_of_isPrefixOf hp.2 h))

theorem mem_of_isSuffixOf {p l : List Char} {c : Char}
    (hp : p.isSuffixOf l = true) (hc : c ∈ p) : c ∈ l := by
  have : c ∈ l.reverse := mem_of_isPrefixOf hp (List.mem_reverse.2 hc)
  exact List.mem_reverse.1 this

theorem dropWhile_eq_self_of_head {p : Char → Bool} :
    ∀ {l : List Char} {c : Char}, l.head? = some c → p c = false → l.dropWhile p = l
  | [], _, h, _ => by simp at h
  | a :: t, c, h, hp => by
    simp only [List.head?, Option.some.injEq] at h
    subst h
    simp [List.dropWhile, hp]

theorem rdropW_eq_self_of_getLast {p : Char → Bool} {l : List Char} {c : Char}
    (h : l.getLast? = some c) (hp : p c = false) : rdropW p l = l := by
  unfold rdropW
  rw [dropWhile_eq_self_of_head (by rw [List.head?_reverse]; exact h) hp,
    List.reverse_reverse]

theorem trimBoth_eq_self {l : List Char} {a b : Char}
    (hh : l.head? = some a) (ha : wsChar a = false)
    (hl : l.getLast? = some b) (hb : wsChar b = false) : trimBoth l = l := by
  unfold trimBoth
  rw [dropWhile_eq_self_of_head hh ha]
  exact rdropW_eq_self_of_getLast hl hb

theorem stripTrailingSlashes_eq_self {l : List Char} {b : Char}
    (hl : l.getLast? = some b) (hb : (b == '/') = false) :
    stripTrailingSlashes l = l :=
  rdropW_eq_self_of_getLast hl hb

theorem stripDotJson_eq_self {l : List Char}
    (h : jsonSuffix.isSuffixOf l = false) : stripDotJson l = l := by
  simp [stripDotJson, h]

theorem cleanUrlCore_starts (u : List Char) :
    httpPre.isPrefixOf (cleanUrlCore u) = true ∨
    httpsPre.isPrefixOf (cleanUrlCore u) = true := by
  unfold cleanUrlCore
  split
  · right
    rw [List.append_assoc]
    exact isPrefixOf_append_self httpsPre (u ++ fbSuffix)
  · split
    · next h =>
      rcases (by simpa using h :
          httpPre.isPrefixOf u = true ∨ httpsPre.isPrefixOf u = true) with h1 | h1
      · exact Or.inl h1
      · exact Or.inr h1
    · exact Or.inr (isPrefixOf_append_self httpsPre u)

theorem cleanUrl_starts (x : List Char) :
    httpPre.isPrefixOf (cleanUrl x) = true ∨
    httpsPre.isPrefixOf (cleanUrl x) = true :=
  cleanUrlCore_starts _

theorem cleanUrl_head (x : List Char) : (cleanUrl x).head? = some 'h' := by
  rcases cleanUrl_starts x with h | h
  · exact head?_of_isPrefixOf h rfl
  · exact head?_of_isPrefixOf h rfl

theorem cleanUrl_mem_colon (x : List Char) : ':' ∈ cleanUrl x := by
  rcases cleanUrl_starts x with h | h
  · exact mem_of_isPrefixOf h (by decide)
  · exact mem_of_isPrefixOf h (by decide)

theorem isProjectId_cleanUrl_false (x : List Char) :
    isProjectId (cleanUrl x) = false := by
  have hc := cleanUrl_mem_colon x
  unfold isProjectId
  rcases h : (cleanUrl x).all idChar with _ | _
  · simp
  · have := List.all_eq_true.1 h ':' hc
    simp [idChar] at this

/-- The safe-ending condition under which `cleanUrl` is idempotent: its output
must not end in whitespace, in a slash, or in the literal suffix ".json"
(each of which the suffix-stripping steps of a second pass would remove). -/
def goodEnding (s : List Char) : Bool :=
  (match s.getLast? with
   | none => true
   | some c => !wsChar c && !(c == '/')) && !(jsonSuffix.isSuffixOf s)

theorem cleanUrl_fixed {y : List Char} {b : Char}
    (hstart : httpPre.isPrefixOf y = true ∨ httpsPre.isPrefixOf y = true)
    (hproj : isProjectId y = false)
    (hb : y.getLast? = some b) (h1 : wsChar b = false) (h2 : (b == '/') = false)
    (h3 : jsonSuffix.isSuffixOf y = false) : cleanUrl y = y := by
  have hhead : y.head? = some 'h' := by
    rcases hstart with h | h
    · exact head?_of_isPrefixOf h rfl
    · exact head?_of_isPrefixOf h rfl
  have e1 : trimBoth y = y := trimBoth_eq_self hhead (by decide) hb h1
  have e2 : stripTrailingSlashes y = y := stripTrailingSlashes_eq_self hb h2
  have e3 : stripDotJson y = y := stripDotJson_eq_self h3
  show cleanUrlCore (stripDotJson (stripTrailingSlashes (trimBoth y))) = y
  rw [e1, e2, e3]
  unfold cleanUrlCore
  rw [hproj]
  rcases hstart with h | h <;> simp [h]

theorem goodEnding_spec {y : List Char} (hne : y ≠ [])
    (h : goodEnding y = true) :
    ∃ b, y.getLast? = some b ∧ wsChar b = false ∧ (b == '/') = false ∧
      jsonSuffix.isSuffixOf y = false := by
  unfold goodEnding at h
  rcases hgl : y.getLast? with _ | b
  · exfalso
    apply hne
    have : y.reverse.head? = none := by rw [List.head?_reverse]; exact hgl
    have : y.reverse = [] := by
      cases hrev : y.reverse
      · rfl
      · rw [hrev] at this; simp at this
    simpa using congrArg List.reverse this
  · rw [hgl] at h
    simp only [Bool.and_eq_true, Bool.not_eq_true'] at h
    exact ⟨b, rfl, h.1.1, h.1.2, h.2⟩

theorem ws_not_id {c : Char} (h : wsChar c = true) : idChar c = false := by
  unfold wsChar at h
  simp only [Bool.or_eq_true, beq_iff_eq] at h
  rcases h with ((((h | h) | h) | h) | h) | h <;> subst h <;> decide

theorem idChar_not_ws {c : Char} (h : idChar c = true) : wsChar c = false := by
  rcases hw : wsChar c with _ | _
  · rfl
  · rw [ws_not_id hw] at h
    exact absurd h (by simp)

theorem cleanUrl_projectId {x : List Char} (h : isProjectId x = true) :
    cleanUrl x = httpsPre ++ x ++ fbSuffix := by
  have hne : x ≠ [] := by
    unfold isProjectId at h
    simp only [Bool.and_eq_true] at h
    intro e
    rw [e] at h
    simp at h
  have hall : ∀ c ∈ x, idChar c = true := by
    unfold isProjectId at h
    simp only [Bool.and_eq_true] at h
    exact List.all_eq_true.1 h.2
  obtain ⟨a, t, rfl⟩ : ∃ a t, x = a :: t := by
    cases x with
    | nil => exact absurd rfl hne
    | cons a t => exact ⟨a, t, rfl⟩
  obtain ⟨b, hbl, hbm⟩ : ∃ b, (a :: t).getLast? = some b ∧ b ∈ a :: t := by
    rcases hrev : (a :: t).reverse with _ | ⟨b, s⟩
    · rw [List.reverse_eq_nil_iff] at hrev
      simp at hrev
    · refine ⟨b, ?_, ?_⟩
      · rw [← List.head?_reverse, hrev]
        rfl
      · have hbr : b ∈ (a :: t).reverse := by
          rw [hrev]
          exact List.mem_cons_self _ _
        exact List.mem_reverse.1 hbr
  have hid_b := hall b hbm
  have hid_a := hall a (List.mem_cons_self a t)
  have e1 : trimBoth (a :: t) = a :: t :=
    trimBoth_eq_self rfl (idChar_not_ws hid_a) hbl (idChar_not_ws hid_b)
  have e2 : stripTrailingSlashes (a :: t) = a :: t := by
    apply stripTrailingSlashes_eq_self hbl
    rcases he : b == '/' with _ | _
    · rfl
    · exact absurd (eq_of_beq he ▸ hid_b) (by decide)
  have e3 : stripDotJson (a :: t) = a :: t := by
    apply stripDotJson_eq_self
    rcases hs : jsonSuffix.isSuffixOf (a :: t) with _ | _
    · rfl
    · have hdot : '.' ∈ a :: t := mem_of_isSuffixOf hs (by decide)
      exact absurd (hall _ hdot) (by decide)
  show cleanUrlCore (stripDotJson (stripTrailingSlashes (trimBoth (a :: t)))) = _
  rw [e1, e2, e3]
  unfold cleanUrlCore
  rw [h]
  simp

/-- C3 (counterexample): URL normalization is NOT idempotent for every input.
The input "/" normalizes to "https://" (trailing-slash stripping leaves the
empty string, which is then prefixed), and a second pass strips the trailing
slashes of the scheme itself and prefixes again, yielding "https://https:". -/
theorem C3_counterexample :
    cleanUrl (cleanUrl (("/").data)) ≠ cleanUrl (("/").data) := by decide

/-- C3 (amended): `cleanUrl` is idempotent on every input whose normalized
form does not end in whitespace, in a slash, or in the suffix ".json" (the
suffix-stripping steps of a second pass can only fire on such endings); and
every bare alphanumeric-and-hyphen identifier normalizes to the canonical
hosted form `https://<identifier>.firebaseio.com`. -/
theorem C3_amended :
    (∀ x : List Char, goodEnding (cleanUrl x) = true →
       cleanUrl (cleanUrl x) = cleanUrl x) ∧
    (∀ x : List Char, isProjectId x = true →
       cleanUrl x = httpsPre ++ x ++ fbSuffix) := by
  constructor
  · intro x h
    have hne : cleanUrl x ≠ [] := by
      have hh := cleanUrl_head x
      intro e
      rw [e] at hh
      simp at hh
    obtain ⟨b, hb, h1, h2, h3⟩ := goodEnding_spec hne h
    exact cleanUrl_fixed (cleanUrl_starts x) (isProjectId_cleanUrl_false x) hb h1 h2 h3
  · intro x h
    exact cleanUrl_projectId h

/-- C3 (witness): the amended theorem applied to the concrete inputs
"example.com/db" (idempotence) and "my-project" (bare identifier). -/
theorem C3_amended_witness :
    cleanUrl (cleanUrl (("example.com/db").data)) = cleanUrl (("example.com/db").data) ∧
    cleanUrl (("my-project").data) = httpsPre ++ ("my-project").data ++ fbSuffix :=
  ⟨C3_amended.1 (("example.com/db").data) (by decide),
   C3_amended.2 (("my-project").data) (by decide)⟩

/-! ### Endpoint construction (buildEndpoint) -/

/-- Model of JavaScript `path.split('/')`: always returns one part more than
the number of separators, keeping empty parts. -/
def splitSlash : List Char → List (List Char)
  | [] => [[]]
  | c :: rest =>
    if c == '/' then [] :: splitSlash rest
    else
      match splitSlash rest with
      | [] => [[c]]
      | s :: ss => (c :: s) :: ss

/-- Join parts with the `/` separator (the inverse of `splitSlash` on
slash-free parts); also used to state claims about canonical paths. -/
def joinSlash : List (List Char) → List Char
  | [] => []
  | [s] => s
  | s :: t :: rest => s ++ '/' :: joinSlash (t :: rest)

def hexUpChars : List Char := ("0123456789ABCDEF").data

def hexUp (n : Nat) : Char := hexUpChars.getD n '0'

/-- One percent-encoded byte, e.g. 32 ↦ "%20". -/
def pctByte (b : Nat) : List Char := ['%', hexUp (b / 16), hexUp (b % 16)]

/-- UTF-8 byte sequence of a Unicode scalar value. -/
def utf8Bytes (n : Nat) : List Nat :=
  if n < 128 then [n]
  else if n < 2048 then [192 + n / 64, 128 + n % 64]
  else if n < 65536 then [224 + n / 4096, 128 + n / 64 % 64, 128 + n % 64]
  else [240 + n / 262144, 128 + n / 4096 % 64, 128 + n / 64 % 64, 128 + n % 64]

def uriUnreservedExtra : List Char :=
  ['-', '_', '.', '!', '~', '*', Char.ofNat 39, '(', ')']

/-- Characters that `encodeURIComponent` leaves unescaped. -/
def uriUnreserved (c : Char) : Bool :=
  c.isAlpha || c.isDigit || uriUnreservedExtra.contains c

def encChar (c : Char) : List Char :=
  if uriUnreserved c then [c] else ((utf8Bytes c.toNat).map pctByte).flatten

/-- Model of the JavaScript builtin `encodeURIComponent`. -/
def encodeURIComponent (s : List Char) : List Char := (s.map encChar).flatten

/-- `buildEndpoint` from the store-client service: the empty path maps to the
bare root resource `<base>/.json`; otherwise leading slashes are stripped,
the path is split on `/`, every component is percent-encoded and the result
is rejoined and appended with the `.json` suffix. -/
def buildEndpoint (baseUrl path : List Char) : List Char :=
  let cleanBase := cleanUrl baseUrl
  if path.isEmpty then cleanBase ++ ("/.json").data
  else
    let cleanPath := path.dropWhile (fun c => c == '/')
    let encodedPath := joinSlash ((splitSlash cleanPath).map encodeURIComponent)
    cleanBase ++ '/' :: (encodedPath ++ (".json").data)

theorem splitSlash_ne_nil : ∀ l : List Char, splitSlash l ≠ []
  | [] => by simp [splitSlash]
  | c :: rest => by
    unfold splitSlash
    split
    · simp
    · rcases h : splitSlash rest with _ | ⟨s, ss⟩
      · simp
      · simp

theorem splitSlash_no_slash : ∀ {s : List Char},
    (∀ c ∈ s, (c == '/') = false) → splitSlash s = [s]
  | [], _ => rfl
  | c :: rest, h => by
    unfold splitSlash
    rw [h c (List.mem_cons_self _ _)]
    simp only [Bool.false_eq_true, if_false]
    rw [splitSlash_no_slash (fun d hd => h d (List.mem_cons_of_mem _ hd))]

theorem splitSlash_append_cons : ∀ {s : List Char} (t : List Char),
    (∀ c ∈ s, (c == '/') = false) →
    splitSlash (s ++ '/' :: t) = s :: splitSlash t
  | [], t, _ => by simp [splitSlash]
  | c :: rest, t, h => by
    have hc := h c (List.mem_cons_self _ _)
    have hrest : ∀ d ∈ rest, (d == '/') = false :=
      fun d hd => h d (List.mem_cons_of_mem _ hd)
    show splitSlash (c :: (rest ++ '/' :: t)) = (c :: rest) :: splitSlash t
    conv_lhs => rw [splitSlash]
    rw [hc]
    simp only [Bool.false_eq_true, if_false]
    rw [splitSlash_append_cons t hrest]

theorem splitSlash_joinSlash : ∀ {parts : List (List Char)}, parts ≠ [] →
    (∀ p ∈ parts, ∀ c ∈ p, (c == '/') = false) →
    splitSlash (joinSlash parts) = parts
  | [], h, _ => absurd rfl h
  | [s], _, h => by
    show splitSlash s = [s]
    exact splitSlash_no_slash (h s (List.mem_cons_self _ _))
  | s :: t :: rest, _, h => by
    show splitSlash (s ++ '/' :: joinSlash (t :: rest)) = s :: (t :: rest)
    rw [splitSlash_append_cons _ (h s (List.mem_cons_self _ _))]
    rw [splitSlash_joinSlash (by simp) (fun p hp => h p (List.mem_cons_of_mem _ hp))]

theorem hexUp_ne_slash (n : Nat) : (hexUp n == '/') = false := by
  unfold hexUp List.getD
  rcases h : hexUpChars.get? n with _ | c
  · simp
  · have hc : c ∈ hexUpChars := List.get?_mem h
    have hall : hexUpChars.all (fun d => !(d == '/')) = true := by decide
    have := List.all_eq_true.1 hall c hc
    simp only [Option.getD_some]
    simpa using this

theorem encChar_no_slash (c : Char) : ∀ d ∈ encChar c, (d == '/') = false := by
  intro d hd
  unfold encChar at hd
  split at hd
  · next hu =>
    simp only [List.mem_singleton] at hd
    subst hd
    rcases he : d == '/' with _ | _
    · rfl
    · rw [eq_of_beq he] at hu
      exact absurd hu (by decide)
  · rcases List.mem_flatten.1 hd with ⟨l, hl, hdl⟩
    rcases List.mem_map.1 hl with ⟨b, _, rfl⟩
    unfold pctByte at hdl
    simp only [List.mem_cons, List.not_mem_nil, or_false] at hdl
    rcases hdl with h1 | h1 | h1
    · rw [h1]; rfl
    · rw [h1]; exact hexUp_ne_slash _
    · rw [h1]; exact hexUp_ne_slash _

theorem encodeURIComponent_no_slash (s : List Char) :
    ∀ d ∈ encodeURIComponent s, (d == '/') = false := by
  intro d hd
  rcases List.mem_flatten.1 hd with ⟨l, hl, hdl⟩
  rcases List.mem_map.1 hl with ⟨c, _, rfl⟩
  exact encChar_no_slash c d hdl

theorem joinSlash_cons_head (a : Char) (s' : List Char) :
    ∀ rest, (joinSlash ((a :: s') :: rest)).head? = some a
  | [] => rfl
  | t :: r => by
    show ((a :: s') ++ '/' :: joinSlash (t :: r)).head? = some a
    rfl

/-- The hypothesis of the amended C6: a canonical segment list (nonempty,
every segment nonempty and slash-free, as in the spec's Path data model). -/
def goodSegs (segs : List (List Char)) : Bool :=
  !segs.isEmpty && segs.all (fun s => !s.isEmpty && s.all (fun c => !(c == '/')))

/-- C6 (counterexample): a key containing a literal `/` DOES merge with
adjacent segments.  The two distinct segment lists ["x", "c/d"] (a two-key
address whose second key contains a slash) and ["x", "c", "d"] produce the
same canonical path and hence the identical endpoint, because `buildEndpoint`
splits the joined path on `/` before percent-encoding, so the slash inside
the key is never encoded. -/
theorem C6_counterexample :
    buildEndpoint (("db").data) (joinSlash [("x").data, ("c/d").data]) =
      buildEndpoint (("db").data) (joinSlash [("x").data, ("c").data, ("d").data]) ∧
    '/' ∈ ("c/d").data ∧
    ([("x").data, ("c/d").data] : List (List Char)) ≠
      [("x").data, ("c").data, ("d").data] :=
  ⟨rfl, by decide, by decide⟩

/-- C6 (amended): the empty path maps to the bare root resource; one leading
slash is transparently stripped; and for every canonical segment list whose
segments are nonempty and slash-free, the endpoint is the normalized base
followed by the independently percent-encoded segments joined with `/` and
the `.json` suffix, and those encoded segments round-trip their boundaries
(splitting the encoded path on `/` recovers exactly the encoded segments —
no character other than the separator itself can merge two segments).  A key
containing a literal `/` is outside this guarantee: it is split into several
segments and merges with the path structure (see the counterexample). -/
theorem C6_amended :
    (∀ base, buildEndpoint base [] = cleanUrl base ++ ("/.json").data) ∧
    (∀ base path, buildEndpoint base ('/' :: path) = buildEndpoint base path) ∧
    (∀ base segs, goodSegs segs = true →
      buildEndpoint base (joinSlash segs) =
        cleanUrl base ++ '/' ::
          (joinSlash (segs.map encodeURIComponent) ++ (".json").data) ∧
      splitSlash (joinSlash (segs.map encodeURIComponent)) =
        segs.map encodeURIComponent) := by
  refine ⟨fun base => rfl, fun base path => by cases path <;> rfl, ?_⟩
  intro base segs hgood
  unfold goodSegs at hgood
  simp only [Bool.and_eq_true, List.all_eq_true, Bool.not_eq_true'] at hgood
  obtain ⟨hne0, hall⟩ := hgood
  have hne : segs ≠ [] := by
    intro e
    rw [e] at hne0
    simp at hne0
  have hsegs_free : ∀ p ∈ segs, ∀ c ∈ p, (c == '/') = false := by
    intro p hp c hc
    exact (hall p hp).2 c hc
  obtain ⟨s0, rest, rfl⟩ : ∃ s0 rest, segs = s0 :: rest := by
    cases segs with
    | nil => exact absurd rfl hne
    | cons s0 rest => exact ⟨s0, rest, rfl⟩
  obtain ⟨a, s', rfl⟩ : ∃ a s', s0 = a :: s' := by
    have h := hall s0 (List.mem_cons_self _ _)
    cases s0 with
    | nil => simp at h
    | cons a s' => exact ⟨a, s', rfl⟩
  have hhead : (joinSlash ((a :: s') :: rest)).head? = some a :=
    joinSlash_cons_head a s' rest
  have ha : (a == '/') = false :=
    hsegs_free _ (List.mem_cons_self _ _) a (List.mem_cons_self _ _)
  have hempty : (joinSlash ((a :: s') :: rest)).isEmpty = false := by
    cases hj : joinSlash ((a :: s') :: rest) with
    | nil => rw [hj] at hhead; simp at hhead
    | cons x xs => rfl
  have hdrop : (joinSlash ((a :: s') :: rest)).dropWhile (fun c => c == '/') =
      joinSlash ((a :: s') :: rest) :=
    dropWhile_eq_self_of_head hhead ha
  have hsplit : splitSlash (joinSlash ((a :: s') :: rest)) = (a :: s') :: rest :=
    splitSlash_joinSlash hne hsegs_free
  constructor
  · show (if (joinSlash ((a :: s') :: rest)).isEmpty then _ else _) = _
    rw [hempty]
    simp only [Bool.false_eq_true, if_false]
    rw [hdrop, hsplit]
  · apply splitSlash_joinSlash
    · simp
    · intro p hp c hc
      rcases List.mem_map.1 hp with ⟨q, _, rfl⟩
      exact encodeURIComponent_no_slash q c hc

/-- C6 (witness): the amended theorem at base "db" and the segment list
["users", "a b"] (the space is percent-encoded, the boundary survives). -/
theorem C6_amended_witness :
    buildEndpoint (("db").data) (joinSlash [("users").data, ("a b").data]) =
      cleanUrl (("db").data) ++ '/' ::
        (joinSlash ([("users").data, ("a b").data].map encodeURIComponent) ++
          (".json").data) ∧
    splitSlash (joinSlash ([("users").data, ("a b").data].map encodeURIComponent)) =
      [("users").data, ("a b").data].map encodeURIComponent :=
  C6_amended.2.2 (("db").data) [("users").data, ("a b").data] (by decide)

/-! ### Store-client HTTP error classification

Each request helper checks `res.ok` and then classifies the status by its
own branch structure.  The error kind names follow the spec taxonomy (§7);
each constructor carries the human-readable message the code throws. -/

inductive StoreErr
  | permissionDenied (msg : List Char)
  | notFound (msg : List Char)
  | malformedRequest (msg : List Char)
  | generic (msg : List Char)
deriving DecidableEq

/-- The kind of an error, without its message payload. -/
inductive ErrKind
  | permK
  | notFoundK
  | malformedK
  | genericK
deriving DecidableEq

def errKind : StoreErr → ErrKind
  | .permissionDenied _ => .permK
  | .notFound _ => .notFoundK
  | .malformedRequest _ => .malformedK
  | .generic _ => .genericK

/-- `res.ok`: the status is in the 2xx success range. -/
def isOkStatus (s : Nat) : Bool := decide (200 ≤ s) && decide (s ≤ 299)

def probePermMsg : List Char :=
  ("⛔ Permission Denied (401): Database rules prevent reading.").data
def probeNotFoundMsg : List Char :=
  ("❌ Database Not Found (404): Check your Project ID.").data
def probeBadReqMsg : List Char :=
  ("⚠️ Bad Request (400): Invalid URL format.").data
def probeGenericPre : List Char := ("⚠️ Connection Error: ").data

/-- Status classification of `checkConnection` (the probe).  The network,
abort and timeout paths are outside this model; this captures what the
function does with a completed HTTP response of the given status. -/
def checkConnection (status : Nat) : Option StoreErr :=
  if isOkStatus status then none
  else if status == 401 then some (.permissionDenied probePermMsg)
  else if status == 404 then some (.notFound probeNotFoundMsg)
  else if status == 400 then some (.malformedRequest probeBadReqMsg)
  else some (.generic (probeGenericPre ++ Nat.toDigits 10 status))

def readPermMsg : List Char := ("Permission Denied (401)").data
def readFailPre : List Char := ("Failed to read data: ").data

/-- Status classification of `readData`. -/
def readData (status : Nat) (statusText : List Char) : Option StoreErr :=
  if isOkStatus status then none
  else if status == 401 then some (.permissionDenied readPermMsg)
  else some (.generic (readFailPre ++ statusText))

def writePermMsg : List Char := ("Permission Denied (401)").data
def writeFailPre : List Char := ("Failed to write data: ").data

/-- Status classification of `writeData` (PUT / Replace). -/
def writeData (status : Nat) (statusText : List Char) : Option StoreErr :=
  if isOkStatus status then none
  else if status == 401 then some (.permissionDenied writePermMsg)
  else some (.generic (writeFailPre ++ statusText))

def updatePermMsg : List Char := ("Permission Denied (401)").data
def updateFailPre : List Char := ("Failed to update data: ").data

/-- Status classification of `updateData` (PATCH / Merge). -/
def updateData (status : Nat) (statusText : List Char) : Option StoreErr :=
  if isOkStatus status then none
  else if status == 401 then some (.permissionDenied updatePermMsg)
  else some (.generic (updateFailPre ++ statusText))

def deletePermMsg : List Char := ("Permission Denied (401): Delete blocked.").data
def deleteFailPre : List Char := ("Failed to delete data: ").data

/-- Status classification of `deleteData` (DELETE / Remove). -/
def deleteData (status : Nat) (statusText : List Char) : Option StoreErr :=
  if isOkStatus status then none
  else if status == 401 then some (.permissionDenied deletePermMsg)
  else some (.generic (deleteFailPre ++ statusText))

/-- C7 (counterexample): a 400 response to a read is NOT classified as a
malformed-request error; it lands in the generic branch, carrying only the
status text.  The claim's status contract (400 → malformed-request for every
request) holds only for the probe. -/
theorem C7_counterexample :
    readData 400 (("Bad Request").data) =
      some (StoreErr.generic (readFailPre ++ ("Bad Request").data)) ∧
    (readData 400 (("Bad Request").data)).map errKind = some ErrKind.genericK ∧
    ErrKind.genericK ≠ ErrKind.malformedK := by
  refine ⟨by decide, by decide, by decide⟩

/-- C7 (amended): every 2xx response is accepted by all five helpers; a 401
yields a permission-denied error everywhere; the probe additionally
distinguishes 404 (not-found) and 400 (malformed-request) and its generic
failure carries the numeric status; each of the four data operations
classifies every other non-2xx response — including 404 and 400 — as a
generic failure carrying the status text. -/
theorem C7_amended :
    (∀ s t, isOkStatus s = true →
      checkConnection s = none ∧ readData s t = none ∧ writeData s t = none ∧
      updateData s t = none ∧ deleteData s t = none) ∧
    (∀ t, checkConnection 401 = some (.permissionDenied probePermMsg) ∧
      readData 401 t = some (.permissionDenied readPermMsg) ∧
      writeData 401 t = some (.permissionDenied writePermMsg) ∧
      updateData 401 t = some (.permissionDenied updatePermMsg) ∧
      deleteData 401 t = some (.permissionDenied deletePermMsg)) ∧
    (checkConnection 404 = some (.notFound probeNotFoundMsg)) ∧
    (checkConnection 400 = some (.malformedRequest probeBadReqMsg)) ∧
    (∀ s, isOkStatus s = false → (s == 401) = false → (s == 404) = false →
      (s == 400) = false →
      checkConnection s = some (.generic (probeGenericPre ++ Nat.toDigits 10 s))) ∧
    (∀ s t, isOkStatus s = false → (s == 401) = false →
      readData s t = some (.generic (readFailPre ++ t)) ∧
      writeData s t = some (.generic (writeFailPre ++ t)) ∧
      updateData s t = some (.generic (updateFailPre ++ t)) ∧
      deleteData s t = some (.generic (deleteFailPre ++ t))) := by
  refine ⟨?_, ?_, by decide, by decide, ?_, ?_⟩
  · intro s t h
    simp [checkConnection, readData, writeData, updateData, deleteData, h]
  · intro t
    simp [checkConnection, readData, writeData, updateData, deleteData, isOkStatus]
  · intro s h h1 h4 h0
    simp [checkConnection, h, h1, h4, h0]
  · intro s t h h1
    simp [readData, writeData, updateData, deleteData, h, h1]

/-- C7 (witness): the amended theorem applied at concrete statuses 204
(success), 401 (permission denied), 500 (generic for the probe) and a 400
read (generic for the data operations). -/
theorem C7_amended_witness :
    readData 204 [] = none ∧
    deleteData 401 [] = some (.permissionDenied deletePermMsg) ∧
    checkConnection 500 = some (.generic (probeGenericPre ++ Nat.toDigits 10 500)) ∧
    writeData 400 (("Bad Request").data) =
      some (.generic (writeFailPre ++ ("Bad Request").data)) :=
  ⟨(C7_amended.1 204 [] (by decide)).2.1,
   (C7_amended.2.1 []).2.2.2.2,
   C7_amended.2.2.2.2.1 500 (by decide) (by decide) (by decide) (by decide),
   (C7_amended.2.2.2.2.2 400 (("Bad Request").data) (by decide) (by decide)).2.1⟩

/-! ### JavaScript values and the Number() conversion

Numbers distinguish NaN, the infinities and finite values; finite values are
modelled exactly as rationals (claims here depend only on which parse branch
is taken, never on IEEE-754 rounding). -/

inductive JSNum
  | nan
  | inf (neg : Bool)
  | fin (q : ℚ)
deriving DecidableEq

inductive JSValue
  | vnull
  | vbool (b : Bool)
  | vnum (n : JSNum)
  | vstr (s : List Char)
  | varr (elements : List JSValue)
  | vobj (fields : List (List Char × JSValue))

def isNanB : JSNum → Bool
  | .nan => true
  | _ => false

def isFiniteB : JSNum → Bool
  | .fin _ => true
  | _ => false

/-- Numeric value of a decimal digit character (the callers guarantee the
character is a digit). -/
def digitsToNat (ds : List Char) : Nat :=
  ds.foldl (fun n c => n * 10 + (c.toNat - 48)) 0

/-- Value of a finite decimal literal: integer digits `ip`, fraction digits
`fp`, decimal exponent `e`, sign `neg`. -/
def jsFin (neg : Bool) (ip fp : List Char) (e : ℤ) : JSNum :=
  let mant : ℚ := (digitsToNat ip : ℚ) + (digitsToNat fp : ℚ) / (10 : ℚ) ^ fp.length
  let mag : ℚ := mant * (10 : ℚ) ^ e
  .fin (if neg then -mag else mag)

def jsExpDigits (r4 : List Char) (neg : Bool) (ip fp : List Char) (eneg : Bool) : JSNum :=
  let ed := r4.takeWhile Char.isDigit
  let r5 := r4.dropWhile Char.isDigit
  if ed.isEmpty || !r5.isEmpty then .nan
  else jsFin neg ip fp (if eneg then -(digitsToNat ed : ℤ) else (digitsToNat ed : ℤ))

def jsExpTail (r3 : List Char) (neg : Bool) (ip fp : List Char) : JSNum :=
  if r3.head? == some '+' then jsExpDigits (r3.drop 1) neg ip fp false
  else if r3.head? == some '-' then jsExpDigits (r3.drop 1) neg ip fp true
  else jsExpDigits r3 neg ip fp false

def jsExponent (r2 : List Char) (neg : Bool) (ip fp : List Char) : JSNum :=
  if r2.isEmpty then jsFin neg ip fp 0
  else if r2.head? == some 'e' || r2.head? == some 'E' then
    jsExpTail (r2.drop 1) neg ip fp
  else .nan

/-- StrUnsignedDecimalLiteral without the Infinity production:
`digits [. digits] [exp]` or `. digits [exp]`; anything left over is NaN. -/
def jsDecimal (r : List Char) (neg : Bool) : JSNum :=
  let ip := r.takeWhile Char.isDigit
  let r1 := r.dropWhile Char.isDigit
  if r1.head? == some '.' then
    let fp := (r1.drop 1).takeWhile Char.isDigit
    let r2 := (r1.drop 1).dropWhile Char.isDigit
    if ip.isEmpty && fp.isEmpty then .nan else jsExponent r2 neg ip fp
  else if ip.isEmpty then .nan
  else jsExponent r1 neg ip []

def infinityChars : List Char := ("Infinity").data

def jsUnsigned (r : List Char) (neg : Bool) : JSNum :=
  if r == infinityChars then .inf neg else jsDecimal r neg

def hexDigitVal (c : Char) : Option Nat :=
  let n := c.toNat
  if 48 ≤ n ∧ n ≤ 57 then some (n - 48)
  else if 65 ≤ n ∧ n ≤ 70 then some (n - 55)
  else if 97 ≤ n ∧ n ≤ 102 then some (n - 87)
  else none

def octDigitVal (c : Char) : Option Nat :=
  let n := c.toNat
  if 48 ≤ n ∧ n ≤ 55 then some (n - 48) else none

def binDigitVal (c : Char) : Option Nat :=
  let n := c.toNat
  if 48 ≤ n ∧ n ≤ 49 then some (n - 48) else none

def parseRadixGo (base : Nat) (dval : Char → Option Nat) :
    List Char → Nat → JSNum
  | [], acc => .fin (acc : ℚ)
  | c :: rest, acc =>
    match dval c with
    | none => .nan
    | some d => parseRadixGo base dval rest (acc * base + d)

/-- NonDecimalIntegerLiteral body: one or more digits of the given radix. -/
def parseRadix (base : Nat) (dval : Char → Option Nat) (r : List Char) : JSNum :=
  if r.isEmpty then .nan else parseRadixGo base dval r 0

/-- Does the (trimmed) literal start with a `0x`/`0o`/`0b`-style radix tag? -/
def isRadixPrefix (t : List Char) (c1 c2 : Char) : Bool :=
  match t with
  | a :: b :: _ => a == '0' && (b == c1 || b == c2)
  | _ => false

/-- StrNumericLiteral after trimming: radix literals take no sign; a sign may
precede `Infinity` or a decimal literal. -/
def jsNumParse (t : List Char) : JSNum :=
  if isRadixPrefix t 'x' 'X' then parseRadix 16 hexDigitVal (t.drop 2)
  else if isRadixPrefix t 'o' 'O' then parseRadix 8 octDigitVal (t.drop 2)
  else if isRadixPrefix t 'b' 'B' then parseRadix 2 binDigitVal (t.drop 2)
  else if t.head? == some '+' then jsUnsigned (t.drop 1) false
  else if t.head? == some '-' then jsUnsigned (t.drop 1) true
  else jsUnsigned t false

/-- Model of the JavaScript builtin `Number(s)` on strings: trim, the empty
remainder converts to 0, otherwise parse a StrNumericLiteral that must
consume the whole remainder. -/
def jsNumber (s : List Char) : JSNum :=
  let t := trimBoth s
  if t.isEmpty then .fin 0 else jsNumParse t

/-! ### JSON.parse

A faithful model of the JSON grammar accepted by `JSON.parse`: a complete
text is optional whitespace, one value, optional whitespace.  Strings accept
the eight single-character escapes and `\uXXXX` (modelled as a single scalar;
surrogate pairing is outside the claims here); unescaped control characters
are rejected.  Objects keep their fields in parse order; `getField` below
returns the last binding of a key, matching the override semantics of
duplicate keys.  The recursive value grammar is driven by a fuel parameter
strictly larger than the recursion the input can demand. -/

def jsonWsChar (c : Char) : Bool := c == ' ' || c == '\t' || c == '\n' || c == '\r'

def skipWs (s : List Char) : List Char := s.dropWhile jsonWsChar

def qmark : Char := Char.ofNat 34
def bslash : Char := Char.ofNat 92
def lbrace : Char := Char.ofNat 123
def rbrace : Char := Char.ofNat 125

def consStr (c : Char) :
    Option (List Char × List Char) → Option (List Char × List Char) :=
  Option.map (fun p => (c :: p.1, p.2))

def parseStrBody : List Char → Option (List Char × List Char)
  | [] => none
  | c :: rest =>
    if c == qmark then some ([], rest)
    else if c == bslash then
      match rest with
      | [] => none
      | e :: r2 =>
        if e == qmark then consStr qmark (parseStrBody r2)
        else if e == bslash then consStr bslash (parseStrBody r2)
        else if e == '/' then consStr '/' (parseStrBody r2)
        else if e == 'b' then consStr (Char.ofNat 8) (parseStrBody r2)
        else if e == 'f' then consStr (Char.ofNat 12) (parseStrBody r2)
        else if e == 'n' then consStr '\n' (parseStrBody r2)
        else if e == 'r' then consStr '\r' (parseStrBody r2)
        else if e == 't' then consStr '\t' (parseStrBody r2)
        else if e == 'u' then
          match r2 with
          | h1 :: h2 :: h3 :: h4 :: r6 =>
            match hexDigitVal h1, hexDigitVal h2, hexDigitVal h3, hexDigitVal h4 with
            | some a, some b, some c2, some d =>
              consStr (Char.ofNat (((a * 16 + b) * 16 + c2) * 16 + d)) (parseStrBody r6)
            | _, _, _, _ => none
          | _ => none
        else none
    else if c.toNat < 32 then none
    else consStr c (parseStrBody rest)

def jsonNumExp (s3 : List Char) (neg : Bool) (ip fp : List Char) :
    Option (ℚ × List Char) :=
  if s3.head? == some 'e' || s3.head? == some 'E' then
    let s4 := s3.drop 1
    let eneg := s4.head? == some '-'
    let s5 := if s4.head? == some '+' || s4.head? == some '-' then s4.drop 1 else s4
    let ed := s5.takeWhile Char.isDigit
    let s6 := s5.dropWhile Char.isDigit
    if ed.isEmpty then none
    else
      match jsFin neg ip fp
        (if eneg then -(digitsToNat ed : ℤ) else (digitsToNat ed : ℤ)) with
      | .fin q => some (q, s6)
      | _ => none
  else
    match jsFin neg ip fp 0 with
    | .fin q => some (q, s3)
    | _ => none

def jsonNumFrac (s2 : List Char) (neg : Bool) (ip : List Char) :
    Option (ℚ × List Char) :=
  if s2.head? == some '.' then
    let fp := (s2.drop 1).takeWhile Char.isDigit
    let s3 := (s2.drop 1).dropWhile Char.isDigit
    if fp.isEmpty then none else jsonNumExp s3 neg ip fp
  else jsonNumExp s2 neg ip []

/-- JSON number: `-? (0 | [1-9]digits) (. digits)? ([eE][+-]?digits)?`. -/
def jsonNumber (s : List Char) : Option (ℚ × List Char) :=
  let neg := s.head? == some '-'
  let s1 := if neg then s.drop 1 else s
  if s1.head? == some '0' then jsonNumFrac (s1.drop 1) neg ['0']
  else
    let ip := s1.takeWhile Char.isDigit
    let s2 := s1.dropWhile Char.isDigit
    if ip.isEmpty then none else jsonNumFrac s2 neg ip

def nullChars : List Char := ("null").data
def trueChars : List Char := ("true").data
def falseChars : List Char := ("false").data

mutual

def parseVal : Nat → List Char → Option (JSValue × List Char)
  | 0, _ => none
  | fuel + 1, s =>
    if nullChars.isPrefixOf s then some (.vnull, s.drop 4)
    else if trueChars.isPrefixOf s then some (.vbool true, s.drop 4)
    else if falseChars.isPrefixOf s then some (.vbool false, s.drop 5)
    else if s.head? == some qmark then
      match parseStrBody (s.drop 1) with
      | some (str, rest) => some (.vstr str, rest)
      | none => none
    else if s.head? == some '[' then
      let s1 := skipWs (s.drop 1)
      if s1.head? == some ']' then some (.varr [], s1.drop 1)
      else
        match parseElems fuel s1 with
        | some (xs, rest) => some (.varr xs, rest)
        | none => none
    else if s.head? == some lbrace then
      let s1 := skipWs (s.drop 1)
      if s1.head? == some rbrace then some (.vobj [], s1.drop 1)
      else
        match parseMembers fuel s1 with
        | some (fs, rest) => some (.vobj fs, rest)
        | none => none
    else
      match jsonNumber s with
      | some (q, rest) => some (.vnum (.fin q), rest)
      | none => none

def parseElems : Nat → List Char → Option (List JSValue × List Char)
  | 0, _ => none
  | fuel + 1, s =>
    match parseVal fuel s with
    | none => none
    | some (v, r1) =>
      let r2 := skipWs r1
      if r2.head? == some ',' then
        match parseElems fuel (skipWs (r2.drop 1)) with
        | some (xs, rest) => some (v :: xs, rest)
        | none => none
      else if r2.head? == some ']' then some ([v], r2.drop 1)
      else none

def parseMembers : Nat → List Char →
    Option (List (List Char × JSValue) × List Char)
  | 0, _ => none
  | fuel + 1, s =>
    if s.head? == some qmark then
      match parseStrBody (s.drop 1) with
      | none => none
      | some (key, r1) =>
        let r2 := skipWs r1
        if r2.head? == some ':' then
          match parseVal fuel (skipWs (r2.drop 1)) with
          | none => none
          | some (v, r3) =>
            let r4 := skipWs r3
            if r4.head? == some ',' then
              match parseMembers fuel (skipWs (r4.drop 1)) with
              | some (fs, rest) => some ((key, v) :: fs, rest)
              | none => none
            else if r4.head? == some rbrace then some ([(key, v)], r4.drop 1)
            else none
        else none
    else none

end

/-- Model of `JSON.parse(s)`: `none` models a thrown SyntaxError. -/
def jsonParse (s : List Char) : Option JSValue :=
  match parseVal (2 * s.length + 4) (skipWs s) with
  | some (v, rest) => if (skipWs rest).isEmpty then some v else none
  | none => none

/-- JavaScript truthiness of a value. -/
def truthy : JSValue → Bool
  | .vnull => false
  | .vbool b => b
  | .vnum n =>
    match n with
    | .nan => false
    | .inf _ => true
    | .fin q => decide (q ≠ 0)
  | .vstr s => !s.isEmpty
  | .varr _ => true
  | .vobj _ => true

/-- Property read `v[k]` on a non-null value: objects return the last binding
of the key (duplicate-key override semantics), everything else yields
`undefined` (modelled as `none`).  Property reads on `null` throw and are
handled at the call sites that model them. -/
def getField (v : JSValue) (k : List Char) : Option JSValue :=
  match v with
  | .vobj fs => fs.foldl (fun acc p => if p.1 == k then some p.2 else acc) none
  | _ => none

/-! ### Tree node editor (DataNode) -/

/-- A single store-client mutation: PUT (Replace), PATCH (Merge), DELETE (Remove). -/
inductive StoreOp
  | put (path : List Char) (data : JSValue)
  | patch (path : List Char) (data : JSValue)
  | del (path : List Char)

/-- `displayPath` of a node: `path ? path + "/" + name : name`. -/
def displayPath (path name : List Char) : List Char :=
  if path.isEmpty then name else path ++ '/' :: name

/-- The "smart parsing" of `handleSave`: literal true/false/null, then a
non-NaN nonblank `Number()` conversion, then `JSON.parse` with the raw
string as fallback. -/
def inferEdit (editValue : List Char) : JSValue :=
  if editValue == trueChars then .vbool true
  else if editValue == falseChars then .vbool false
  else if editValue == nullChars then .vnull
  else if !isNanB (jsNumber editValue) && !(trimBoth editValue).isEmpty then
    .vnum (jsNumber editValue)
  else
    match jsonParse editValue with
    | some v => v
    | none => .vstr editValue

/-- The mutation issued by `handleSave`: a PUT of the inferred value at the
node's `displayPath`. -/
def handleSave (path name editValue : List Char) : StoreOp :=
  .put (displayPath path name) (inferEdit editValue)

/-- `newValue.startsWith('{') || newValue.startsWith('[')`. -/
def startsCurly (s : List Char) : Bool :=
  s.head? == some lbrace || s.head? == some '['

/-- The value inference of `handleAddChild`: literal true/false (no null
case), then the `Number()` conversion, and a `JSON.parse` attempt that runs
exactly when the raw text starts with a brace or a bracket, keeping the
previous value on parse failure. -/
def inferAdd (newValue : List Char) : JSValue :=
  let p1 : JSValue :=
    if newValue == trueChars then .vbool true
    else if newValue == falseChars then .vbool false
    else if !isNanB (jsNumber newValue) && !(trimBoth newValue).isEmpty then
      .vnum (jsNumber newValue)
    else .vstr newValue
  if startsCurly newValue then
    match jsonParse newValue with
    | some v => v
    | none => p1
  else p1

/-- `childPath`: `displayPath ? displayPath + "/" + newKey : newKey`. -/
def childPath (dp newKey : List Char) : List Char :=
  if dp.isEmpty then newKey else dp ++ '/' :: newKey

/-- `handleAddChild`: refuses a blank key, otherwise PUTs the inferred value
at the child path. -/
def handleAddChild (path name newKey newValue : List Char) : Option StoreOp :=
  if (trimBoth newKey).isEmpty then none
  else some (.put (childPath (displayPath path name) newKey) (inferAdd newValue))

/-! ### Head-character lemmas for the editor proofs -/

theorem rdropW_cons {p : Char → Bool} {c : Char} (l : List Char)
    (hc : p c = false) : rdropW p (c :: l) = c :: rdropW p l := by
  unfold rdropW
  rw [List.reverse_cons, List.dropWhile_append]
  split
  · next hemp =>
    have hnil : l.reverse.dropWhile p = [] := by
      cases h : l.reverse.dropWhile p
      · rfl
      · rw [h] at hemp; simp at hemp
    rw [hnil]
    simp [List.dropWhile, hc]
  · rw [List.reverse_append]
    simp [List.dropWhile, hc]

theorem trimBoth_cons {c : Char} (l : List Char) (hc : wsChar c = false) :
    trimBoth (c :: l) = c :: rdropW wsChar l := by
  unfold trimBoth
  rw [dropWhile_eq_self_of_head (show (c :: l).head? = some c from rfl) hc,
    rdropW_cons l hc]

theorem isRadixPrefix_bad_head {c : Char} (w : List Char) (c1 c2 : Char)
    (h0 : (c == '0') = false) : isRadixPrefix (c :: w) c1 c2 = false := by
  cases w <;> simp [isRadixPrefix, h0]

theorem jsNumParse_bad_head {c : Char} (w : List Char)
    (h0 : (c == '0') = false) (hp : (c == '+') = false) (hm : (c == '-') = false)
    (hI : (c == 'I') = false) (hd : c.isDigit = false) (hdot : (c == '.') = false) :
    jsNumParse (c :: w) = JSNum.nan := by
  unfold jsNumParse
  rw [isRadixPrefix_bad_head w 'x' 'X' h0, isRadixPrefix_bad_head w 'o' 'O' h0,
    isRadixPrefix_bad_head w 'b' 'B' h0]
  have hhp : ((c :: w).head? == some '+') = (c == '+') := rfl
  have hhm : ((c :: w).head? == some '-') = (c == '-') := rfl
  rw [hhp, hhm, hp, hm]
  simp only [Bool.false_eq_true, if_false]
  unfold jsUnsigned
  have hinf : ((c :: w) == infinityChars) = false := by
    cases hh : (c :: w) == infinityChars
    · rfl
    · have he : c :: w = infinityChars := eq_of_beq hh
      have hcI : c = 'I' := by
        have := congrArg List.head? he
        simpa [infinityChars] using this
      rw [hcI] at hI
      simp at hI
  rw [hinf]
  simp only [Bool.false_eq_true, if_false]
  unfold jsDecimal
  simp only [List.takeWhile_cons, List.dropWhile_cons, hd, Bool.false_eq_true, if_false]
  have hhdot : ((c :: w).head? == some '.') = (c == '.') := rfl
  rw [hhdot, hdot]
  simp

theorem jsNumber_cons_nan {c : Char} (r : List Char)
    (hws : wsChar c = false)
    (h0 : (c == '0') = false) (hp : (c == '+') = false) (hm : (c == '-') = false)
    (hI : (c == 'I') = false) (hd : c.isDigit = false) (hdot : (c == '.') = false) :
    jsNumber (c :: r) = JSNum.nan := by
  unfold jsNumber
  rw [trimBoth_cons r hws]
  simp only [List.isEmpty_cons, Bool.false_eq_true, if_false]
  exact jsNumParse_bad_head _ h0 hp hm hI hd hdot

/-- C4 (counterexample): the input "Infinity" is not parseable as a finite
number (Number yields the non-finite Infinity) and is not valid JSON, so the
claim's precedence demands the raw string — but `handleSave` commits the
non-finite number Infinity, because the code only tests `!isNaN(Number(x))`,
not finiteness. -/
theorem C4_counterexample :
    isFiniteB (jsNumber (("Infinity").data)) = false ∧
    jsonParse (("Infinity").data) = none ∧
    inferEdit (("Infinity").data) = JSValue.vnum (JSNum.inf false) :=
  ⟨by decide, rfl, rfl⟩

/-- C4 (amended): the commit conversion of an inline edit follows exactly
this precedence: literal true/false/null; then ANY string whose `Number()`
conversion is not NaN (finite or not, e.g. "Infinity") and whose trimmed
form is nonblank becomes that number; otherwise a JSON parse is attempted,
deterministically falling back to the raw string; the result is sent as a
Replace (PUT) at the node's exact display path. -/
theorem C4_amended :
    (inferEdit trueChars = JSValue.vbool true) ∧
    (inferEdit falseChars = JSValue.vbool false) ∧
    (inferEdit nullChars = JSValue.vnull) ∧
    (∀ s, (s == trueChars) = false → (s == falseChars) = false →
      (s == nullChars) = false → isNanB (jsNumber s) = false →
      (trimBoth s).isEmpty = false → inferEdit s = JSValue.vnum (jsNumber s)) ∧
    (∀ s, (s == trueChars) = false → (s == falseChars) = false →
      (s == nullChars) = false →
      (!isNanB (jsNumber s) && !(trimBoth s).isEmpty) = false →
      inferEdit s = (jsonParse s).getD (JSValue.vstr s)) ∧
    (∀ path name editValue, handleSave path name editValue =
      StoreOp.put (displayPath path name) (inferEdit editValue)) := by
  refine ⟨rfl, rfl, rfl, ?_, ?_, fun _ _ _ => rfl⟩
  · intro s h1 h2 h3 h4 h5
    simp [inferEdit, h1, h2, h3, h4, h5]
  · intro s h1 h2 h3 h4
    simp only [inferEdit, h1, h2, h3, h4, Bool.false_eq_true, if_false]
    cases jsonParse s <;> rfl

/-- C4 (witness): the amended theorem applied at "42" (number branch) and
"hello" (string fallback branch). -/
theorem C4_amended_witness :
    inferEdit (("42").data) = JSValue.vnum (jsNumber (("42").data)) ∧
    inferEdit (("hello").data) =
      (jsonParse (("hello").data)).getD (JSValue.vstr (("hello").data)) :=
  ⟨C4_amended.2.2.2.1 (("42").data)
      (by decide) (by decide) (by decide) (by decide) (by decide),
   C4_amended.2.2.2.2.1 (("hello").data)
      (by decide) (by decide) (by decide) (by decide)⟩

/-- C5 (counterexample): child insertion does NOT map the literal string
"null" to the null value — `handleAddChild` has no null case, so the child
is created with the raw string "null". -/
theorem C5_counterexample :
    inferAdd (("null").data) = JSValue.vstr (("null").data) ∧
    JSValue.vstr (("null").data) ≠ JSValue.vnull :=
  ⟨rfl, fun h => JSValue.noConfusion h⟩

theorem startsCurly_facts {s : List Char} (h : startsCurly s = true) :
    (s == trueChars) = false ∧ (s == falseChars) = false ∧
    isNanB (jsNumber s) = true := by
  obtain ⟨c, r, rfl, hc⟩ : ∃ c r, s = c :: r ∧ (c = lbrace ∨ c = '[') := by
    cases s with
    | nil => simp [startsCurly] at h
    | cons c r =>
      refine ⟨c, r, rfl, ?_⟩
      unfold startsCurly at h
      rcases (by simpa using h :
          ((c :: r).head? == some lbrace) = true ∨
          ((c :: r).head? == some '[') = true) with h1 | h1
      · left
        have : (c == lbrace) = true := h1
        exact eq_of_beq this
      · right
        have : (c == '[') = true := h1
        exact eq_of_beq this
  have hnan : jsNumber (c :: r) = JSNum.nan := by
    rcases hc with rfl | rfl
    · exact jsNumber_cons_nan r (by decide) (by decide) (by decide) (by decide)
        (by decide) (by decide) (by decide)
    · exact jsNumber_cons_nan r (by decide) (by decide) (by decide) (by decide)
        (by decide) (by decide) (by decide)
  refine ⟨?_, ?_, by rw [hnan]; rfl⟩
  · cases hh : (c :: r) == trueChars
    · rfl
    · exfalso
      have he := congrArg List.head? (eq_of_beq hh)
      simp only [trueChars, List.head?, Option.some.injEq] at he
      rcases hc with rfl | rfl <;> exact absurd he (by decide)
  · cases hh : (c :: r) == falseChars
    · rfl
    · exfalso
      have he := congrArg List.head? (eq_of_beq hh)
      simp only [falseChars, List.head?, Option.some.injEq] at he
      rcases hc with rfl | rfl <;> exact absurd he (by decide)

/-- C5 (amended): child insertion applies the true/false and number steps of
the inline-edit precedence but has NO null mapping (the literal "null" stays
a raw string); a structured JSON parse is attempted exactly when the raw
text starts with a brace or a bracket, silently keeping the raw string on a
failed parse; a blank key aborts; otherwise a Replace (PUT) is issued at
`displayPath + "/" + newKey` (or at `newKey` under the root). -/
theorem C5_amended :
    (inferAdd trueChars = JSValue.vbool true) ∧
    (inferAdd falseChars = JSValue.vbool false) ∧
    (inferAdd nullChars = JSValue.vstr nullChars) ∧
    (∀ s, startsCurly s = false → (s == trueChars) = false →
      (s == falseChars) = false → isNanB (jsNumber s) = false →
      (trimBoth s).isEmpty = false → inferAdd s = JSValue.vnum (jsNumber s)) ∧
    (∀ s, startsCurly s = false → (s == trueChars) = false →
      (s == falseChars) = false →
      (!isNanB (jsNumber s) && !(trimBoth s).isEmpty) = false →
      inferAdd s = JSValue.vstr s) ∧
    (∀ s, startsCurly s = true →
      inferAdd s = (jsonParse s).getD (JSValue.vstr s)) ∧
    (∀ path name newKey newValue, (trimBoth newKey).isEmpty = true →
      handleAddChild path name newKey newValue = none) ∧
    (∀ path name newKey newValue, (trimBoth newKey).isEmpty = false →
      handleAddChild path name newKey newValue =
        some (StoreOp.put (childPath (displayPath path name) newKey)
          (inferAdd newValue))) := by
  refine ⟨rfl, rfl, rfl, ?_, ?_, ?_, ?_, ?_⟩
  · intro s hcur h1 h2 h3 h4
    simp [inferAdd, hcur, h1, h2, h3, h4]
  · intro s hcur h1 h2 h3
    simp [inferAdd, hcur, h1, h2, h3]
  · intro s hcur
    obtain ⟨h1, h2, h3⟩ := startsCurly_facts hcur
    simp only [inferAdd, hcur, h1, h2, h3, Bool.not_true, Bool.false_and,
      Bool.false_eq_true, if_false, if_true]
    cases jsonParse s <;> rfl
  · intro path name newKey newValue h
    simp [handleAddChild, h]
  · intro path name newKey newValue h
    simp [handleAddChild, h]

/-- C5 (witness): the amended theorem applied at the child values "7"
(number branch), "x" (raw string branch), "[1]" (JSON branch) and a blank /
nonblank key. -/
theorem C5_amended_witness :
    inferAdd (("7").data) = JSValue.vnum (jsNumber (("7").data)) ∧
    inferAdd (("x").data) = JSValue.vstr (("x").data) ∧
    inferAdd (("[1]").data) =
      (jsonParse (("[1]").data)).getD (JSValue.vstr (("[1]").data)) ∧
    handleAddChild (("a").data) (("b").data) ((" ").data) (("7").data) = none ∧
    handleAddChild (("a").data) (("b").data) (("k").data) (("7").data) =
      some (StoreOp.put (childPath (displayPath (("a").data) (("b").data)) (("k").data))
        (inferAdd (("7").data))) :=
  ⟨C5_amended.2.2.2.1 (("7").data)
      (by decide) (by decide) (by decide) (by decide) (by decide),
   C5_amended.2.2.2.2.1 (("x").data)
      (by decide) (by decide) (by decide) (by decide),
   C5_amended.2.2.2.2.2.1 (("[1]").data) (by decide),
   C5_amended.2.2.2.2.2.2.1 (("a").data) (("b").data) ((" ").data) (("7").data)
      (by decide),
   C5_amended.2.2.2.2.2.2.2 (("a").data) (("b").data) (("k").data) (("7").data)
      (by decide)⟩

/-! ### Plan generator response handling (geminiService) -/

def noRespMsg : List Char := ("No response from AI").data
def jsonErrMsg : List Char := ("AI response was not valid JSON.").data
def modelNotFoundMsg : List Char := ("Model not found. Check API Key.").data
def aiErrPre : List Char := ("AI Error: ").data
def defaultMessage : List Char := ("Here is the plan.").data
def messageKey : List Char := ("message").data
def actionsKey : List Char := ("actions").data

structure AIRespOut where
  message : JSValue
  actions : List JSValue

/-- `Array.isArray(parsed.actions)` (undefined included). -/
def isArrB : Option JSValue → Bool
  | some (.varr _) => true
  | _ => false

def getArr : Option JSValue → List JSValue
  | some (.varr xs) => xs
  | _ => []

/-- `parsed.message || "Here is the plan."`: the message field when truthy
(used as-is, whatever its type), otherwise the default string. -/
def shapeMessage (parsed : JSValue) : JSValue :=
  match getField parsed messageKey with
  | some m => if truthy m then m else JSValue.vstr defaultMessage
  | none => JSValue.vstr defaultMessage

def shapeParsed (parsed : JSValue) : AIRespOut :=
  ⟨shapeMessage parsed, getArr (getField parsed actionsKey)⟩

/-- Model of `haystack.includes(pat)` on character lists. -/
def containsSeq (pat : List Char) : List Char → Bool
  | [] => pat.isEmpty
  | c :: rest => pat.isPrefixOf (c :: rest) || containsSeq pat rest

/-- The response handling of `generateDataWithAI`, given the response text.
An empty text is falsy and rejected; a text that fails to parse as JSON is
rejected; a text parsing to `null` also throws (property access on `null`
raises a TypeError, caught by the same catch and converted to the
invalid-JSON error); anything else is shaped.  The outer catch finally
rewraps every error message. -/
def generateDataWithAI (text : List Char) : Except (List Char) AIRespOut :=
  let inner : Except (List Char) AIRespOut :=
    if text.isEmpty then .error noRespMsg
    else
      match jsonParse text with
      | none => .error jsonErrMsg
      | some JSValue.vnull => .error jsonErrMsg
      | some parsed => .ok (shapeParsed parsed)
  match inner with
  | .ok r => .ok r
  | .error m =>
    if containsSeq (("404").data) m || containsSeq (("NOT_FOUND").data) m then
      .error modelNotFoundMsg
    else .error (aiErrPre ++ m)

theorem getArr_eq_nil {o : Option JSValue} (h : isArrB o = false) : getArr o = [] := by
  match o with
  | none => rfl
  | some v => cases v <;> simp_all [isArrB, getArr]

/-- C8 (counterexample): the response text "null" parses as JSON (its
`actions` field is not a list), yet the call throws instead of returning an
empty action list: the property access on `null` raises, the catch converts
it to the invalid-JSON error, and the outer catch rewraps it. -/
theorem C8_counterexample :
    jsonParse (("null").data) = some JSValue.vnull ∧
    generateDataWithAI (("null").data) = Except.error (aiErrPre ++ jsonErrMsg) :=
  ⟨rfl, rfl⟩

/-- C8 (amended): for every nonempty response text that parses as JSON to a
NON-NULL value whose `actions` field is not an array, the call returns
normally with an empty action list; the message used is the response's
`message` value when truthy (used as-is even when it is not a string), and
otherwise the default string. -/
theorem C8_amended : ∀ (text : List Char) (parsed : JSValue),
    text.isEmpty = false → jsonParse text = some parsed →
    parsed ≠ JSValue.vnull → isArrB (getField parsed actionsKey) = false →
    generateDataWithAI text = Except.ok ⟨shapeMessage parsed, []⟩ ∧
    ((∃ m, getField parsed messageKey = some m ∧ truthy m = true ∧
        shapeMessage parsed = m) ∨
      shapeMessage parsed = JSValue.vstr defaultMessage) := by
  intro text parsed htext hparse hnn harr
  constructor
  · have hshape : shapeParsed parsed = ⟨shapeMessage parsed, []⟩ := by
      unfold shapeParsed
      rw [getArr_eq_nil harr]
    unfold generateDataWithAI
    rw [htext]
    simp only [Bool.false_eq_true, if_false]
    rw [hparse]
    cases parsed with
    | vnull => exact absurd rfl hnn
    | vbool b => exact congrArg Except.ok hshape
    | vnum n => exact congrArg Except.ok hshape
    | vstr s => exact congrArg Except.ok hshape
    | varr xs => exact congrArg Except.ok hshape
    | vobj fs => exact congrArg Except.ok hshape
  · cases hg : getField parsed messageKey with
    | none =>
      right
      unfold shapeMessage
      rw [hg]
    | some m =>
      cases ht : truthy m with
      | true =>
        left
        refine ⟨m, rfl, ht, ?_⟩
        unfold shapeMessage
        rw [hg]
        show (if truthy m = true then m else JSValue.vstr defaultMessage) = m
        rw [ht]
        simp
      | false =>
        right
        unfold shapeMessage
        rw [hg]
        show (if truthy m = true then m else JSValue.vstr defaultMessage) = _
        rw [ht]
        simp

/-- C8 (witness): the amended theorem at the response text "[]" (a JSON
array: its `message` and `actions` fields are both undefined, so the result
is the default message with an empty action list). -/
theorem C8_amended_witness :
    generateDataWithAI (("[]").data) =
      Except.ok ⟨shapeMessage (JSValue.varr []), []⟩ ∧
    ((∃ m, getField (JSValue.varr []) messageKey = some m ∧ truthy m = true ∧
        shapeMessage (JSValue.varr []) = m) ∨
      shapeMessage (JSValue.varr []) = JSValue.vstr defaultMessage) :=
  C8_amended (("[]").data) (JSValue.varr []) (by decide) rfl
    (fun h => JSValue.noConfusion h) rfl

/-! ### Plan execution engine (handleExecuteAiPlan) -/

structure AIAction where
  typ : List Char
  path : List Char
  data : JSValue

def cSET : List Char := ("SET").data
def cUPDATE : List Char := ("UPDATE").data
def cDELETE : List Char := ("DELETE").data

/-- Executor path normalization: strip one leading slash when present. -/
def fullPathOf (p : List Char) : List Char :=
  if p.head? == some '/' then p.drop 1 else p

/-- Dispatch of one action inside the executor loop: the three recognized
kinds map to a store operation; any other kind matches NO branch of the
if-chain and performs no operation at all. -/
def dispatchOp (a : AIAction) : Option StoreOp :=
  if a.typ == cDELETE then some (.del (fullPathOf a.path))
  else if a.typ == cSET then some (.put (fullPathOf a.path) a.data)
  else if a.typ == cUPDATE then some (.patch (fullPathOf a.path) a.data)
  else none

/-- The executor loop: actions strictly in list order, `successCount`
incremented after every iteration (recognized or not), an `await` failure
aborts the loop.  The environment is an oracle giving the store's answer to
each operation; the returned list holds the operations that completed. -/
def execLoop (oracle : StoreOp → Except (List Char) Unit) :
    List AIAction → Nat → List StoreOp → List StoreOp × Except (List Char) Nat
  | [], n, done => (done.reverse, .ok n)
  | a :: rest, n, done =>
    match dispatchOp a with
    | none => execLoop oracle rest (n + 1) done
    | some op =>
      match oracle op with
      | .ok _ => execLoop oracle rest (n + 1) (op :: done)
      | .error m => (done.reverse, .error m)

def execPlan (oracle : StoreOp → Except (List Char) Unit)
    (actions : List AIAction) : List StoreOp × Except (List Char) Nat :=
  execLoop oracle actions 0 []

/-- The AI-modal state touched by `handleExecuteAiPlan`. -/
structure ModalState where
  showAiModal : Bool
  aiPrompt : List Char
  aiPath : List Char
  aiResult : Option (List AIAction)

/-- The observable outcome of one `handleExecuteAiPlan` run: the modal state
afterwards, the store operations that completed, the toast message, and
whether a root refresh was triggered. -/
structure HandlerOut where
  state : ModalState
  applied : List StoreOp
  notice : Option (List Char)
  refreshed : Bool

def successMsg (n : Nat) : List Char :=
  ("Successfully executed ").data ++ Nat.toDigits 10 n ++ (" actions.").data

def failMsg (m : List Char) : List Char :=
  ("Error executing plan: ").data ++ m

/-- `handleExecuteAiPlan`: guard on a present, nonempty action list; run the
loop; on success notify with the count, close the modal, clear prompt, path
and result and refresh the root; on failure only notify with the error. -/
def handleExecuteAiPlan (oracle : StoreOp → Except (List Char) Unit)
    (st : ModalState) : HandlerOut :=
  match st.aiResult with
  | none => ⟨st, [], none, false⟩
  | some actions =>
    if actions.isEmpty then ⟨st, [], none, false⟩
    else
      match execPlan oracle actions with
      | (applied, .ok n) =>
        ⟨⟨false, [], [], none⟩, applied, some (successMsg n), true⟩
      | (applied, .error m) => ⟨st, applied, some (failMsg m), false⟩

/-- Does the oracle let this action through?  (Unrecognized kinds perform no
operation and thus always "succeed".) -/
def actOk (oracle : StoreOp → Except (List Char) Unit) (a : AIAction) : Bool :=
  match dispatchOp a with
  | none => true
  | some op =>
    match oracle op with
    | .ok _ => true
    | .error _ => false

theorem execLoop_cons (oracle : StoreOp → Except (List Char) Unit)
    (a : AIAction) (rest : List AIAction) (n : Nat) (done : List StoreOp) :
    execLoop oracle (a :: rest) n done =
      match dispatchOp a with
      | none => execLoop oracle rest (n + 1) done
      | some op =>
        match oracle op with
        | .ok _ => execLoop oracle rest (n + 1) (op :: done)
        | .error m => (done.reverse, .error m) := rfl

theorem execLoop_all_ok (oracle : StoreOp → Except (List Char) Unit) :
    ∀ (acts : List AIAction) (n : Nat) (done : List StoreOp),
    acts.all (actOk oracle) = true →
    execLoop oracle acts n done =
      (done.reverse ++ acts.filterMap dispatchOp, .ok (n + acts.length))
  | [], n, done, _ => by simp [execLoop]
  | a :: rest, n, done, h => by
    rw [List.all_cons, Bool.and_eq_true] at h
    obtain ⟨ha, hrest⟩ := h
    cases hd : dispatchOp a with
    | none =>
      simp only [execLoop_cons, hd]
      rw [execLoop_all_ok oracle rest (n + 1) done hrest]
      simp only [List.filterMap_cons, hd, Prod.mk.injEq, List.length_cons,
        Except.ok.injEq, true_and]
      omega
    | some op =>
      unfold actOk at ha
      rw [hd] at ha
      have ha' : (match oracle op with
        | Except.ok _ => true
        | Except.error _ => false) = true := ha
      cases ho : oracle op with
      | error m => rw [ho] at ha'; simp at ha'
      | ok u =>
        simp only [execLoop_cons, hd, ho]
        rw [execLoop_all_ok oracle rest (n + 1) (op :: done) hrest]
        simp only [List.filterMap_cons, hd, Prod.mk.injEq, List.length_cons,
          Except.ok.injEq, List.reverse_cons, List.append_assoc, List.cons_append,
          List.nil_append, true_and]
        omega

theorem execLoop_fail (oracle : StoreOp → Except (List Char) Unit) :
    ∀ (pre : List AIAction) (a : AIAction) (post : List AIAction)
      (op : StoreOp) (m : List Char) (n : Nat) (done : List StoreOp),
    pre.all (actOk oracle) = true → dispatchOp a = some op →
    oracle op = .error m →
    execLoop oracle (pre ++ a :: post) n done =
      (done.reverse ++ pre.filterMap dispatchOp, .error m)
  | [], a, post, op, m, n, done, _, hd, ho => by
    show execLoop oracle (a :: post) n done = _
    simp only [execLoop_cons, hd, ho]
    simp
  | b :: pre, a, post, op, m, n, done, h, hd, ho => by
    rw [List.all_cons, Bool.and_eq_true] at h
    obtain ⟨hb, hpre⟩ := h
    show execLoop oracle (b :: (pre ++ a :: post)) n done = _
    cases hdb : dispatchOp b with
    | none =>
      simp only [execLoop_cons, hdb]
      rw [execLoop_fail oracle pre a post op m (n + 1) done hpre hd ho]
      simp [List.filterMap_cons, hdb]
    | some opb =>
      unfold actOk at hb
      rw [hdb] at hb
      have hb' : (match oracle opb with
        | Except.ok _ => true
        | Except.error _ => false) = true := hb
      cases hob : oracle opb with
      | error m2 => rw [hob] at hb'; simp at hb'
      | ok u =>
        simp only [execLoop_cons, hdb, hob]
        rw [execLoop_fail oracle pre a post op m (n + 1) (opb :: done) hpre hd ho]
        simp [List.filterMap_cons, hdb, List.reverse_cons, List.append_assoc]

/-- C1 (amended): a confirmed plan executes strictly in list order; when
every action goes through, all of them are applied in order and the success
report carries the full count; when an action fails after a succeeding
prefix, exactly the operations of that prefix are applied (in order, not
rolled back), nothing after the failing action is attempted, and the
surfaced failure report is the fixed text followed by the triggering error
message alone — it does NOT include the number of completed actions. -/
theorem C1_amended :
    (∀ (oracle : StoreOp → Except (List Char) Unit) (st : ModalState)
       (acts : List AIAction), st.aiResult = some acts → acts ≠ [] →
       acts.all (actOk oracle) = true →
       handleExecuteAiPlan oracle st =
         ⟨⟨false, [], [], none⟩, acts.filterMap dispatchOp,
          some (successMsg acts.length), true⟩) ∧
    (∀ (oracle : StoreOp → Except (List Char) Unit) (st : ModalState)
       (pre : List AIAction) (a : AIAction) (post : List AIAction)
       (op : StoreOp) (m : List Char),
       st.aiResult = some (pre ++ a :: post) →
       pre.all (actOk oracle) = true → dispatchOp a = some op →
       oracle op = Except.error m →
       handleExecuteAiPlan oracle st =
         ⟨st, pre.filterMap dispatchOp, some (failMsg m), false⟩) := by
  constructor
  · intro oracle st acts hres hne hall
    have hemp : acts.isEmpty = false := by
      cases acts
      · exact absurd rfl hne
      · rfl
    simp only [handleExecuteAiPlan, hres, hemp, Bool.false_eq_true, if_false,
      execPlan]
    rw [execLoop_all_ok oracle acts 0 [] hall]
    simp
  · intro oracle st pre a post op m hres hpre hd ho
    have hemp : (pre ++ a :: post).isEmpty = false := by
      cases pre <;> rfl
    simp only [handleExecuteAiPlan, hres, hemp, Bool.false_eq_true, if_false,
      execPlan]
    rw [execLoop_fail oracle pre a post op m 0 [] hpre hd ho]
    simp

/-! Shared concrete execution scenario: a store that accepts writes and
merges but rejects deletions with the message "boom", and a proposed plan
[SET a, DELETE b]. -/

def exBoom : List Char := ("boom").data

def exOracle : StoreOp → Except (List Char) Unit := fun op =>
  match op with
  | StoreOp.del _ => Except.error exBoom
  | _ => Except.ok ()

def exSet : AIAction := ⟨cSET, ("a").data, JSValue.vnull⟩

def exDel : AIAction := ⟨cDELETE, ("b").data, JSValue.vnull⟩

def exState : ModalState := ⟨true, ("p").data, ("q").data, some [exSet, exDel]⟩

/-- C1 (counterexample): in a run where one action completed before the
failure (N = 1), the surfaced failure report is exactly
"Error executing plan: boom" — a digit-free string, so it does not include
the count N required by the claim. -/
theorem C1_counterexample :
    (handleExecuteAiPlan exOracle exState).applied =
      [StoreOp.put (("a").data) JSValue.vnull] ∧
    (handleExecuteAiPlan exOracle exState).notice =
      some (("Error executing plan: boom").data) ∧
    (("Error executing plan: boom").data).any Char.isDigit = false :=
  ⟨rfl, rfl, by decide⟩

/-- C1 (witness): the amended theorem's failure clause at the shared
concrete scenario. -/
theorem C1_amended_witness :
    handleExecuteAiPlan exOracle exState =
      ⟨exState, [StoreOp.put (("a").data) JSValue.vnull],
       some (failMsg exBoom), false⟩ :=
  C1_amended.2 exOracle exState [exSet] exDel [] (StoreOp.del (("b").data)) exBoom
    rfl (by decide) rfl rfl

/-- C2 (code bug): an action of the unrecognized kind "FOO" matches no
branch of the executor's if-chain, so no store call is made — even against a
store that rejects every operation, the plan completes, the counter is still
incremented, and the handler reports "Successfully executed 1 actions.",
closes the modal and refreshes.  The spec requires such an action to be
rejected as invalid input, never executed as a no-op the plan reports as a
success. -/
theorem C2_code_bug :
    handleExecuteAiPlan (fun _ => Except.error (("store down").data))
        ⟨true, ("p").data, ("q").data, some [⟨("FOO").data, ("x").data, JSValue.vnull⟩]⟩ =
      ⟨⟨false, [], [], none⟩, [], some (successMsg 1), true⟩ ∧
    successMsg 1 = ("Successfully executed 1 actions.").data :=
  ⟨rfl, rfl⟩

/-- C10 (confirmed): when any action of an executing plan fails, the modal
state (open flag, prompt, target path, proposed actions) is returned
unchanged and no root refresh is triggered; the reset state and the refresh
happen exactly when every action succeeded. -/
theorem C10_frame :
    (∀ (oracle : StoreOp → Except (List Char) Unit) (st : ModalState)
       (pre : List AIAction) (a : AIAction) (post : List AIAction)
       (op : StoreOp) (m : List Char),
       st.aiResult = some (pre ++ a :: post) →
       pre.all (actOk oracle) = true → dispatchOp a = some op →
       oracle op = Except.error m →
       (handleExecuteAiPlan oracle st).state = st ∧
       (handleExecuteAiPlan oracle st).refreshed = false) ∧
    (∀ (oracle : StoreOp → Except (List Char) Unit) (st : ModalState)
       (acts : List AIAction), st.aiResult = some acts → acts ≠ [] →
       acts.all (actOk oracle) = true →
       (handleExecuteAiPlan oracle st).state = ⟨false, [], [], none⟩ ∧
       (handleExecuteAiPlan oracle st).refreshed = true) := by
  constructor
  · intro oracle st pre a post op m hres hpre hd ho
    have hemp : (pre ++ a :: post).isEmpty = false := by
      cases pre <;> rfl
    have hrun : handleExecuteAiPlan oracle st =
        ⟨st, pre.filterMap dispatchOp, some (failMsg m), false⟩ := by
      simp only [handleExecuteAiPlan, hres, hemp, Bool.false_eq_true, if_false,
        execPlan]
      rw [execLoop_fail oracle pre a post op m 0 [] hpre hd ho]
      simp
    rw [hrun]
    exact ⟨rfl, rfl⟩
  · intro oracle st acts hres hne hall
    have hemp : acts.isEmpty = false := by
      cases acts
      · exact absurd rfl hne
      · rfl
    have hrun : handleExecuteAiPlan oracle st =
        ⟨⟨false, [], [], none⟩, acts.filterMap dispatchOp,
         some (successMsg acts.length), true⟩ := by
      simp only [handleExecuteAiPlan, hres, hemp, Bool.false_eq_true, if_false,
        execPlan]
      rw [execLoop_all_ok oracle acts 0 [] hall]
      simp
    rw [hrun]
    exact ⟨rfl, rfl⟩

/-- C10 (witness): the frame theorem's failure clause at the shared concrete
scenario. -/
theorem C10_frame_witness :
    (handleExecuteAiPlan exOracle exState).state = exState ∧
    (handleExecuteAiPlan exOracle exState).refreshed = false :=
  C10_frame.1 exOracle exState [exSet] exDel [] (StoreOp.del (("b").data)) exBoom
    rfl (by decide) rfl rfl

/-! ### Tree rendering (DataNode expansion) -/

/-- `value !== null && typeof value === 'object'`: exactly the container
values (objects and arrays) are expandable. -/
def isObjectValue : JSValue → Bool
  | .vobj _ => true
  | .varr _ => true
  | _ => false

/-- `useState<boolean>(depth < 1)`: the default expansion state of a node. -/
def initialExpanded (depth : Nat) : Bool := decide (depth < 1)

/-- C9 (counterexample): a node at depth 1 (a child of a top-level entry,
which is rendered with depth 0 and whose children get depth + 1) defaults to
COLLAPSED, contradicting the claim that both depth 0 and depth 1 default to
expanded. -/
theorem C9_counterexample : initialExpanded 1 = false := by decide

/-- C9 (amended): only container values (objects and arrays) are expandable
— null, booleans, numbers and strings are not — and a node's expansion state
defaults to expanded exactly at depth 0, the single shallowest rendered
level; every deeper node defaults to collapsed. -/
theorem C9_amended :
    (isObjectValue JSValue.vnull = false) ∧
    (∀ b, isObjectValue (JSValue.vbool b) = false) ∧
    (∀ n, isObjectValue (JSValue.vnum n) = false) ∧
    (∀ s, isObjectValue (JSValue.vstr s) = false) ∧
    (∀ xs, isObjectValue (JSValue.varr xs) = true) ∧
    (∀ fs, isObjectValue (JSValue.vobj fs) = true) ∧
    (initialExpanded 0 = true) ∧
    (∀ d, initialExpanded (d + 1) = false) := by
  refine ⟨rfl, fun b => rfl, fun n => rfl, fun s => rfl, fun xs => rfl,
    fun fs => rfl, rfl, fun d => ?_⟩
  unfold initialExpanded
  rw [decide_eq_false_iff_not]
  omega

end RomanTools



